import Mathlib

/-!
Verification of the cylindrical-tank cost-optimization engine.

Shallow embedding of `src/model/tank_model.py`: the cost model
(`objective_function`), the quadratic constraint penalty
(`constraints_penalty`), the backtracking Armijo line search
(`line_search_backtrack`), and the three optimizer loops
(`steepest_descent`, `newton_method`, `dfp_method`).

Modelling conventions:
* Python floats are modelled by an arbitrary `LinearOrderedField α`
  (instantiated at `ℚ` in concrete computations); decimal constants of the
  source (`0.9`, `1e7`, `1e-4`, ...) are modelled by the exact rationals
  they denote.
* `float('inf')` is modelled by `⊤ : WithTop α`; the raw objective and the
  penalized objective therefore land in `WithTop α`, matching the
  comparison semantics of IEEE infinities for the orderings and additions
  the source performs.
* Design points are pairs `α × α` (the engine is only ever run at `n = 2`,
  with `x = (D, L)`), and `2 × 2` matrices are a four-field structure.
* The finite-difference oracle (`gradient_numerical`, `hessian_numerical`)
  and the Euclidean norm `np.linalg.norm` are abstracted into an `Oracle`
  record of functions that each optimizer consumes; the structural claims
  about the loops hold for every oracle, hence in particular for the
  finite-difference one.  `np.pi` is likewise an arbitrary scalar
  parameter where the cost formulas need it.
-/

section TankModel

variable {α : Type} [LinearOrderedField α]

/-- Dot product of two 2-vectors, as `np.dot` on length-2 arrays. -/
def dotV (u v : α × α) : α := u.1 * v.1 + u.2 * v.2

/-- The physical parameters of the tank problem (`Parameters` dataclass). -/
structure Parameters (α : Type) where
  V0 : α
  t : α
  rho : α
  Lmax : α
  Dmax : α
  cm : α
  cw : α

/-- The default parameter values of the source (`V0=0.8`, `t=0.03`,
`rho=8000`, `Lmax=2.0`, `Dmax=1.0`, `cm=4.5`, `cw=20.0`). -/
def defaultParameters : Parameters ℚ :=
  ⟨8/10, 3/100, 8000, 2, 1, 45/10, 20⟩

/-- Source `TankOptimizer.objective_function`: raw manufacturing cost of design
`x = (D, L)`.  Returns `float('inf')` (here `⊤`) whenever `D ≤ 0` or
`L ≤ 0`; otherwise `cm·mass + cw·weldLength`, a total function (the source
raises no exception on any input).  `pi` stands for `np.pi`. -/
def objective_function (pi : α) (p : Parameters α) (x : α × α) : WithTop α :=
  let D := x.1
  let L := x.2
  if D ≤ 0 ∨ L ≤ 0 then ⊤
  else
    let v_cylinder_wall := L * pi * ((D / 2 + p.t) ^ 2 - (D / 2) ^ 2)
    let v_plates := 2 * pi * (D / 2 + p.t) ^ 2 * p.t
    let m := p.rho * (v_cylinder_wall + v_plates)
    let lw := 4 * pi * (D + p.t)
    ((p.cm * m + p.cw * lw : α) : WithTop α)

/-- Source `TankOptimizer.constraints_penalty`: one-sided quadratic penalty with
coefficient `k` (the source default is `penalty_factor = 1e7`) over the six
conditions of the source, in source order. -/
def constraints_penalty (pi k : α) (p : Parameters α) (x : α × α) : α :=
  let D := x.1
  let L := x.2
  let V_internal := pi * D ^ 2 * L / 4
  let lower_vol_bound := 9/10 * p.V0
  let upper_vol_bound := 11/10 * p.V0
  (if V_internal < lower_vol_bound then k * (lower_vol_bound - V_internal) ^ 2 else 0)
  + (if V_internal > upper_vol_bound then k * (V_internal - upper_vol_bound) ^ 2 else 0)
  + (if L > p.Lmax then k * (L - p.Lmax) ^ 2 else 0)
  + (if D > p.Dmax then k * (D - p.Dmax) ^ 2 else 0)
  + (if D ≤ 0 then k * (-D + 1/1000) ^ 2 else 0)
  + (if L ≤ 0 then k * (-L + 1/1000) ^ 2 else 0)

/-- Source `TankOptimizer.penalized_objective`: the function every optimizer
minimizes (raw cost plus penalty at the source's default `k = 1e7`). -/
def penalized_objective (pi : α) (p : Parameters α) (x : α × α) : WithTop α :=
  objective_function pi p x + ((constraints_penalty pi (10 ^ 7) p x : α) : WithTop α)

/-- The feasible region of the design problem: positive dimensions, internal
volume within `±10%` of `V0`, and the box bounds `D ≤ Dmax`, `L ≤ Lmax` —
exactly the designs at which none of the six penalty conditions fires. -/
def insideFeasibleRegion (pi : α) (p : Parameters α) (x : α × α) : Prop :=
  0 < x.1 ∧ 0 < x.2 ∧
    9/10 * p.V0 ≤ pi * x.1 ^ 2 * x.2 / 4 ∧
    pi * x.1 ^ 2 * x.2 / 4 ≤ 11/10 * p.V0 ∧
    x.1 ≤ p.Dmax ∧ x.2 ≤ p.Lmax

/-- Source `TankOptimizer.gradient_numerical` specialized to 2-vectors: central
finite difference of a scalar function per coordinate with step `h`. -/
def gradient_numerical (f : α × α → α) (x : α × α) (h : α) : α × α :=
  ((f (x.1 + h, x.2) - f (x.1 - h, x.2)) / (2 * h),
   (f (x.1, x.2 + h) - f (x.1, x.2 - h)) / (2 * h))

/-- The Armijo sufficient-decrease test performed by
`line_search_backtrack` at trial step `alpha`: `f (x + alpha·d) ≤
f x + c1·alpha·(g·d)` (in `WithTop α`, matching IEEE `inf` comparisons). -/
def armijoHolds (f : α × α → WithTop α) (x direction : α × α)
    (f_x : WithTop α) (gdd c1 : α) (alpha : α) : Prop :=
  f (x + alpha • direction) ≤ f_x + ((c1 * alpha * gdd : α) : WithTop α)

instance armijoHolds_decidable (f : α × α → WithTop α) (x direction : α × α)
    (f_x : WithTop α) (gdd c1 alpha : α) :
    Decidable (armijoHolds f x direction f_x gdd c1 alpha) := by
  unfold armijoHolds; infer_instance

/-- The `for _ in range(50)` loop of `line_search_backtrack`, with the
remaining attempt count as fuel: test the Armijo condition at the current
`alpha`; on success return `(alpha, evals + 1)`, otherwise shrink `alpha`
by `rho` and continue; when the attempts are exhausted return the current
(never tested) `alpha` together with `evals`. -/
def lsLoop (f : α × α → WithTop α) (x direction : α × α) (f_x : WithTop α)
    (gdd c1 rho : α) : Nat → α → Nat → α × Nat
  | 0, alpha, evals => (alpha, evals)
  | fuel + 1, alpha, evals =>
      if armijoHolds f x direction f_x gdd c1 alpha then (alpha, evals + 1)
      else lsLoop f x direction f_x gdd c1 rho fuel (alpha * rho) (evals + 1)

/-- Source `TankOptimizer.line_search_backtrack`: backtracking Armijo line search
with a hard cap of 50 attempts.  Returns `(alpha, evaluation count)`. -/
def line_search_backtrack (f : α × α → WithTop α) (x direction grad : α × α)
    (alpha_init c1 rho : α) : α × Nat :=
  lsLoop f x direction (f x) (dotV grad direction) c1 rho 50 alpha_init 0

/-- A `2 × 2` real matrix `[[a, b], [c, d]]` (the only size the engine ever
builds: Hessians and DFP inverse-Hessian approximations at `n = 2`). -/
structure Mat2 (α : Type) where
  a : α
  b : α
  c : α
  d : α

instance : Add (Mat2 α) :=
  ⟨fun M N => ⟨M.a + N.a, M.b + N.b, M.c + N.c, M.d + N.d⟩⟩

instance : Sub (Mat2 α) :=
  ⟨fun M N => ⟨M.a - N.a, M.b - N.b, M.c - N.c, M.d - N.d⟩⟩

instance : SMul α (Mat2 α) :=
  ⟨fun r M => ⟨r * M.a, r * M.b, r * M.c, r * M.d⟩⟩

instance : Mul (Mat2 α) :=
  ⟨fun M N =>
    ⟨M.a * N.a + M.b * N.c, M.a * N.b + M.b * N.d,
     M.c * N.a + M.d * N.c, M.c * N.b + M.d * N.d⟩⟩

theorem Mat2.add_def (M N : Mat2 α) :
    M + N = ⟨M.a + N.a, M.b + N.b, M.c + N.c, M.d + N.d⟩ := rfl

theorem Mat2.sub_def (M N : Mat2 α) :
    M - N = ⟨M.a - N.a, M.b - N.b, M.c - N.c, M.d - N.d⟩ := rfl

theorem Mat2.smul_def (r : α) (M : Mat2 α) :
    r • M = ⟨r * M.a, r * M.b, r * M.c, r * M.d⟩ := rfl

theorem Mat2.mul_def (M N : Mat2 α) :
    M * N = ⟨M.a * N.a + M.b * N.c, M.a * N.b + M.b * N.d,
      M.c * N.a + M.d * N.c, M.c * N.b + M.d * N.d⟩ := rfl

/-- Matrix `np.eye(2)`. -/
def Mat2.eye : Mat2 α := ⟨1, 0, 0, 1⟩

/-- Matrix–vector product. -/
def Mat2.mulVec (M : Mat2 α) (v : α × α) : α × α :=
  (M.a * v.1 + M.b * v.2, M.c * v.1 + M.d * v.2)

/-- Determinant. -/
def Mat2.det (M : Mat2 α) : α := M.a * M.d - M.b * M.c

/-- Product `np.outer` of two 2-vectors. -/
def outer (u v : α × α) : Mat2 α :=
  ⟨u.1 * v.1, u.1 * v.2, u.2 * v.1, u.2 * v.2⟩

/-- Solver `np.linalg.solve` for a `2 × 2` system: `none` models the
`LinAlgError` raised on a singular matrix, otherwise the unique solution
of `M ⬝ w = v` by Cramer's rule. -/
def solve2 (M : Mat2 α) (v : α × α) : Option (α × α) :=
  if M.det = 0 then none
  else some ((M.d * v.1 - M.b * v.2) / M.det, (M.a * v.2 - M.c * v.1) / M.det)

/-- One attempt of Newton's regularized direction search at regularization
`reg`: solve `(hess + reg·I) d = -grad` and accept `d` iff `d·g < 0`; a
singular matrix (`LinAlgError`) or a non-descent solution is a rejection
(`none`). -/
def lmAttempt (hess : Mat2 α) (grad : α × α) (reg : α) : Option (α × α) :=
  match solve2 (hess + reg • Mat2.eye) (-grad) with
  | some d => if dotV d grad < 0 then some d else none
  | none => none

/-- The `while True` regularization-escalation loop of `newton_method`
(fuel-bounded; the source loop terminates because `reg` is multiplied by 10
until it passes `1e2`).  After a rejected attempt, `reg` is multiplied by
10, and if it then exceeds `1e2` the steepest-descent direction `-grad` is
used. -/
def lmLoop (hess : Mat2 α) (grad : α × α) : Nat → α → α × α
  | 0, _ => -grad
  | fuel + 1, reg =>
      match lmAttempt hess grad reg with
      | some d => d
      | none =>
          if reg * 10 > 100 then -grad
          else lmLoop hess grad fuel (reg * 10)

/-- The direction chosen by an iteration of `newton_method` whose gradient
norm test did not fire: Levenberg–Marquardt escalation starting at
`reg = 1e-8` (12 units of fuel are enough: the source loop runs at most 11
attempts before `reg` passes `1e2`). -/
def newtonDirection (hess : Mat2 α) (grad : α × α) : α × α :=
  lmLoop hess grad 12 (1 / 10 ^ 8)

/-- The numerical services an optimizer consumes: the (penalized) objective
`f`, the finite-difference gradient and Hessian of `f` at the step sizes of
the run, and the Euclidean norm.  The structural theorems below hold for
every oracle, hence in particular for
`gradient_numerical (penalized_objective …) · h` and its Hessian analogue. -/
structure Oracle (α : Type) where
  f : α × α → WithTop α
  grad : α × α → α × α
  hess : α × α → Mat2 α
  norm : α × α → α

/-- The `OptimizationResult` dataclass. -/
structure OptimizationResult (α : Type) where
  x_history : List (α × α)
  f_history : List (WithTop α)
  gradient_norms : List α
  iterations : Nat
  function_evaluations : Nat
  final_x : α × α
  final_f : WithTop α
  converged : Bool
  method_name : String

/-- Loop state of `steepest_descent` and `newton_method`: the live iterate,
the history lists, the evaluation counter, the number of completed
iterations, and whether the convergence test has fired (`done` encodes the
early `return` of the source loop; once set, the state is frozen). -/
structure SdState (α : Type) where
  x : α × α
  x_history : List (α × α)
  f_history : List (WithTop α)
  gradient_norms : List α
  func_evals : Nat
  iter : Nat
  done : Bool

/-- State immediately before the `for` loop of `steepest_descent` /
`newton_method`: histories seeded with `x0` and `f(x0)`, one function
evaluation counted. -/
def sdInit (O : Oracle α) (x0 : α × α) : SdState α :=
  ⟨x0, [x0], [O.f x0], [], 1, 0, false⟩

/-- One iteration of the `steepest_descent` loop body: compute the
gradient (2·n = 4 evaluations), append its norm, test convergence (which
freezes the state, modelling the early return), otherwise line-search along
`-grad`, step, and append to the histories. -/
def sdStep (O : Oracle α) (tol : α) (st : SdState α) : SdState α :=
  if st.done then st
  else
    let grad := O.grad st.x
    let fe1 := st.func_evals + 4
    let grad_norm := O.norm grad
    let gns := st.gradient_norms ++ [grad_norm]
    if grad_norm < tol then
      ⟨st.x, st.x_history, st.f_history, gns, fe1, st.iter, true⟩
    else
      let direction := -grad
      let ls := line_search_backtrack O.f st.x direction grad 1 (1 / 10 ^ 4) (1 / 2)
      let x' := st.x + ls.1 • direction
      ⟨x', st.x_history ++ [x'], st.f_history ++ [O.f x'], gns,
        fe1 + ls.2 + 1, st.iter + 1, false⟩

/-- Package a final loop state as the source's `OptimizationResult`
(`final_f` is literally `f_history[-1]` in the source). -/
def mkResult (name : String) (st : SdState α) : OptimizationResult α :=
  ⟨st.x_history, st.f_history, st.gradient_norms, st.iter, st.func_evals,
    st.x, st.f_history.getLastD ⊤, st.done, name⟩

/-- Source `TankOptimizer.steepest_descent`. -/
def steepest_descent (O : Oracle α) (x0 : α × α) (max_iter : Nat) (tol : α) :
    OptimizationResult α :=
  mkResult "Steepest Descent" ((sdStep O tol)^[max_iter] (sdInit O x0))

/-- One iteration of the `newton_method` loop body: identical to
`sdStep` except that the direction comes from the Levenberg–Marquardt
escalation on the finite-difference Hessian and the per-iteration
evaluation cost is `2n + 4n² = 20`. -/
def newtonStep (O : Oracle α) (tol : α) (st : SdState α) : SdState α :=
  if st.done then st
  else
    let grad := O.grad st.x
    let hess := O.hess st.x
    let fe1 := st.func_evals + 20
    let grad_norm := O.norm grad
    let gns := st.gradient_norms ++ [grad_norm]
    if grad_norm < tol then
      ⟨st.x, st.x_history, st.f_history, gns, fe1, st.iter, true⟩
    else
      let direction := newtonDirection hess grad
      let ls := line_search_backtrack O.f st.x direction grad 1 (1 / 10 ^ 4) (1 / 2)
      let x' := st.x + ls.1 • direction
      ⟨x', st.x_history ++ [x'], st.f_history ++ [O.f x'], gns,
        fe1 + ls.2 + 1, st.iter + 1, false⟩

/-- Source `TankOptimizer.newton_method`. -/
def newton_method (O : Oracle α) (x0 : α × α) (max_iter : Nat) (tol : α) :
    OptimizationResult α :=
  mkResult "Newton" ((newtonStep O tol)^[max_iter] (sdInit O x0))

/-- The DFP rank-2 update of the source, applied when the curvature
condition holds: `H + (s sᵗ)/(s·y) − ((H y)(H y)ᵗ)/(y·(H y))`
(the source's `np.outer`/`np.dot` form). -/
def dfpUpdate (H : Mat2 α) (s y : α × α) : Mat2 α :=
  let Hy := H.mulVec y
  H + (1 / dotV s y) • outer s s - (1 / dotV y Hy) • outer Hy Hy

/-- The inverse-Hessian approximation kept for the next DFP step: updated
exactly when the curvature condition `y·s > 1e-12` holds, otherwise left
unchanged. -/
def dfpNextH (H : Mat2 α) (s y : α × α) : Mat2 α :=
  if dotV y s > 1 / 10 ^ 12 then dfpUpdate H s y else H

/-- Loop state of `dfp_method`: additionally carries the previous
iteration's gradient (`grad_old` of the source) and the inverse-Hessian
approximation `H`. -/
structure DfpState (α : Type) where
  x : α × α
  g : α × α
  H : Mat2 α
  x_history : List (α × α)
  f_history : List (WithTop α)
  gradient_norms : List α
  func_evals : Nat
  iter : Nat
  done : Bool

/-- State immediately before the `for` loop of `dfp_method`: `H = I`, the
gradient already computed at `x0` (`1 + 2n = 5` evaluations counted). -/
def dfpInit (O : Oracle α) (x0 : α × α) : DfpState α :=
  ⟨x0, O.grad x0, Mat2.eye, [x0], [O.f x0], [], 5, 0, false⟩

/-- One iteration of the `dfp_method` loop body: test `|grad_old| < tol`
(freezing the state on success), otherwise move along `-H·g`, compute the
new gradient, and update `H` through `dfpNextH`; the loop continues whether
or not the curvature condition held. -/
def dfpStep (O : Oracle α) (tol : α) (st : DfpState α) : DfpState α :=
  if st.done then st
  else
    let grad_norm := O.norm st.g
    let gns := st.gradient_norms ++ [grad_norm]
    if grad_norm < tol then
      ⟨st.x, st.g, st.H, st.x_history, st.f_history, gns, st.func_evals, st.iter, true⟩
    else
      let direction := -(st.H.mulVec st.g)
      let ls := line_search_backtrack O.f st.x direction st.g 1 (1 / 10 ^ 4) (1 / 2)
      let s := ls.1 • direction
      let x' := st.x + s
      let g' := O.grad x'
      let y := g' - st.g
      ⟨x', g', dfpNextH st.H s y, st.x_history ++ [x'],
        st.f_history ++ [O.f x'], gns, st.func_evals + ls.2 + 4 + 1,
        st.iter + 1, false⟩

/-- Package a final DFP loop state as an `OptimizationResult`. -/
def mkResultDfp (st : DfpState α) : OptimizationResult α :=
  ⟨st.x_history, st.f_history, st.gradient_norms, st.iter, st.func_evals,
    st.x, st.f_history.getLastD ⊤, st.done, "DFP"⟩

/-- Source `TankOptimizer.dfp_method`. -/
def dfp_method (O : Oracle α) (x0 : α × α) (max_iter : Nat) (tol : α) :
    OptimizationResult α :=
  mkResultDfp ((dfpStep O tol)^[max_iter] (dfpInit O x0))

/-! The penalty as a sum over the six one-sided conditions (C4) -/

/-- The six (condition, violation) pairs of the spec's penalty description,
in source order: volume below `0.9·V0`, volume above `1.1·V0`, `L > Lmax`,
`D > Dmax`, `D ≤ 0`, `L ≤ 0`. -/
def penaltyTerms (pi : α) (p : Parameters α) (x : α × α) : List (Bool × α) :=
  [(decide (pi * x.1 ^ 2 * x.2 / 4 < 9/10 * p.V0), 9/10 * p.V0 - pi * x.1 ^ 2 * x.2 / 4),
   (decide (pi * x.1 ^ 2 * x.2 / 4 > 11/10 * p.V0), pi * x.1 ^ 2 * x.2 / 4 - 11/10 * p.V0),
   (decide (x.2 > p.Lmax), x.2 - p.Lmax),
   (decide (x.1 > p.Dmax), x.1 - p.Dmax),
   (decide (x.1 ≤ 0), -x.1 + 1/1000),
   (decide (x.2 ≤ 0), -x.2 + 1/1000)]

/-- Sum of `k·violation²` over the terms whose condition holds. -/
def penaltyTermsSum (pi k : α) (p : Parameters α) (x : α × α) : α :=
  ((penaltyTerms pi p x).map fun t => if t.1 then k * t.2 ^ 2 else 0).sum

/-- C4: for every design vector `x = (D, L)`, `constraints_penalty`
equals the sum of `k·violation²` over exactly the six one-sided conditions
(volume below `0.9·V0`, volume above `1.1·V0`, `L > Lmax`, `D > Dmax`,
`D ≤ 0`, `L ≤ 0`), each term contributing only when its condition holds;
and the penalty is zero whenever `x` lies inside the feasible region. -/
theorem constraints_penalty_six_terms_and_zero_on_feasible
    (pi k : α) (p : Parameters α) (x : α × α) :
    constraints_penalty pi k p x = penaltyTermsSum pi k p x ∧
      (insideFeasibleRegion pi p x → constraints_penalty pi k p x = 0) := by
  constructor
  · simp only [constraints_penalty, penaltyTermsSum, penaltyTerms, List.map_cons,
      List.map_nil, List.sum_cons, List.sum_nil, decide_eq_true_eq]
    ring
  · rintro ⟨hD, hL, hlo, hhi, hDmax, hLmax⟩
    simp only [constraints_penalty]
    rw [if_neg (not_lt.mpr hlo), if_neg (not_lt.mpr hhi), if_neg (not_lt.mpr hLmax),
      if_neg (not_lt.mpr hDmax), if_neg (not_le.mpr hD), if_neg (not_le.mpr hL)]
    ring

/-- Witness for C4 at a concrete feasible input. -/
theorem constraints_penalty_six_terms_witness :
    constraints_penalty (4 : ℚ) (10 ^ 7) ⟨1, 3/100, 8000, 2, 1, 45/10, 20⟩ (1, 1) =
        penaltyTermsSum (4 : ℚ) (10 ^ 7) ⟨1, 3/100, 8000, 2, 1, 45/10, 20⟩ (1, 1) ∧
      constraints_penalty (4 : ℚ) (10 ^ 7) ⟨1, 3/100, 8000, 2, 1, 45/10, 20⟩ (1, 1) = 0 :=
  ⟨(constraints_penalty_six_terms_and_zero_on_feasible 4 (10 ^ 7) _ (1, 1)).1,
   (constraints_penalty_six_terms_and_zero_on_feasible 4 (10 ^ 7) _ (1, 1)).2
     (by refine ⟨by norm_num, by norm_num, by norm_num, by norm_num, by norm_num, by norm_num⟩)⟩

/-- C5: the raw cost function returns `+infinity` (a value, not an
exception: the function is total) whenever `D ≤ 0` or `L ≤ 0`, and
otherwise returns `cm·mass + cw·weldLength` with
`mass = rho·(L·π·((D/2+t)² − (D/2)²) + 2·π·(D/2+t)²·t)` and
`weldLength = 4·π·(D+t)`. -/
theorem objective_function_guard_and_formula
    (pi : α) (p : Parameters α) (D L : α) :
    ((D ≤ 0 ∨ L ≤ 0) → objective_function pi p (D, L) = ⊤) ∧
      (0 < D → 0 < L →
        objective_function pi p (D, L) =
          ((p.cm * (p.rho * (L * pi * ((D / 2 + p.t) ^ 2 - (D / 2) ^ 2)
              + 2 * pi * (D / 2 + p.t) ^ 2 * p.t))
            + p.cw * (4 * pi * (D + p.t)) : α) : WithTop α)) := by
  constructor
  · intro h
    simp only [objective_function]
    rw [if_pos h]
  · intro hD hL
    simp only [objective_function]
    rw [if_neg (by push_neg; exact ⟨hD, hL⟩)]

/-- Witness for C5: both branches at concrete inputs. -/
theorem objective_function_guard_witness :
    objective_function (3 : ℚ) defaultParameters (-1, 1) = ⊤ ∧
      objective_function (3 : ℚ) defaultParameters (1, 1) =
        ((defaultParameters.cm * (defaultParameters.rho *
            (1 * 3 * ((1 / 2 + defaultParameters.t) ^ 2 - (1 / 2 : ℚ) ^ 2)
              + 2 * 3 * (1 / 2 + defaultParameters.t) ^ 2 * defaultParameters.t))
          + defaultParameters.cw * (4 * 3 * (1 + defaultParameters.t) : ℚ) : ℚ) : WithTop ℚ) :=
  ⟨(objective_function_guard_and_formula 3 defaultParameters (-1) 1).1 (Or.inl (by norm_num)),
   (objective_function_guard_and_formula 3 defaultParameters 1 1).2 (by norm_num) (by norm_num)⟩

/-! Characterization of the backtracking line search (C3) -/

/-- If the Armijo condition first holds at the `k`-th trial step
`alpha·rho^k` (`k < fuel`), the loop returns that step with `k + 1`
condition evaluations counted on top of `evals`. -/
theorem lsLoop_first_success (f : α × α → WithTop α) (x direction : α × α)
    (f_x : WithTop α) (gdd c1 rho : α) :
    ∀ (fuel k : Nat) (alpha : α) (evals : Nat), k < fuel →
      (∀ j, j < k → ¬ armijoHolds f x direction f_x gdd c1 (alpha * rho ^ j)) →
      armijoHolds f x direction f_x gdd c1 (alpha * rho ^ k) →
      lsLoop f x direction f_x gdd c1 rho fuel alpha evals =
        (alpha * rho ^ k, evals + k + 1) := by
  intro fuel
  induction fuel with
  | zero => intro k alpha evals hk _ _; exact absurd hk (Nat.not_lt_zero k)
  | succ fuel ih =>
    intro k alpha evals hk hmin hacc
    by_cases h0 : armijoHolds f x direction f_x gdd c1 alpha
    · have hk0 : k = 0 := by
        by_contra hne
        exact hmin 0 (Nat.pos_of_ne_zero hne) (by simpa using h0)
      subst hk0
      simp only [lsLoop, if_pos h0]
      exact Prod.ext (by ring) (by omega)
    · obtain ⟨k', rfl⟩ : ∃ k', k = k' + 1 := by
        cases k with
        | zero => exact absurd (by simpa using hacc) h0
        | succ k' => exact ⟨k', rfl⟩
      simp only [lsLoop, if_neg h0]
      have hmin' : ∀ j, j < k' →
          ¬ armijoHolds f x direction f_x gdd c1 (alpha * rho * rho ^ j) := by
        intro j hj
        have := hmin (j + 1) (by omega)
        simpa [pow_succ, mul_assoc, mul_comm, mul_left_comm] using this
      have hacc' : armijoHolds f x direction f_x gdd c1 (alpha * rho * rho ^ k') := by
        simpa [pow_succ, mul_assoc, mul_comm, mul_left_comm] using hacc
      rw [ih k' (alpha * rho) (evals + 1) (by omega) hmin' hacc']
      exact Prod.ext (by ring) (by omega)

/-- If the Armijo condition fails at every one of the `fuel` trial steps,
the loop exhausts its attempts and returns `alpha·rho^fuel` — a step at
which the condition was never evaluated. -/
theorem lsLoop_exhausted (f : α × α → WithTop α) (x direction : α × α)
    (f_x : WithTop α) (gdd c1 rho : α) :
    ∀ (fuel : Nat) (alpha : α) (evals : Nat),
      (∀ j, j < fuel → ¬ armijoHolds f x direction f_x gdd c1 (alpha * rho ^ j)) →
      lsLoop f x direction f_x gdd c1 rho fuel alpha evals =
        (alpha * rho ^ fuel, evals + fuel) := by
  intro fuel
  induction fuel with
  | zero => intro alpha evals _; simp [lsLoop]
  | succ fuel ih =>
    intro alpha evals hfail
    have h0 : ¬ armijoHolds f x direction f_x gdd c1 alpha := by
      have := hfail 0 (by omega)
      simpa using this
    simp only [lsLoop, if_neg h0]
    have hfail' : ∀ j, j < fuel →
        ¬ armijoHolds f x direction f_x gdd c1 (alpha * rho * rho ^ j) := by
      intro j hj
      have := hfail (j + 1) (by omega)
      simpa [pow_succ, mul_assoc, mul_comm, mul_left_comm] using this
    rw [ih (alpha * rho) (evals + 1) hfail']
    exact Prod.ext (by ring) (by omega)

/-- C3 (amended): `line_search_backtrack` returns the first `alpha` in the
sequence `alpha0, alpha0·rho, …, alpha0·rho^49` that satisfies the Armijo
condition, counting `k + 1` function evaluations; and when none of the 50
attempts satisfies it, it terminates after exactly 50 attempts and returns
`alpha0·rho^50` — the last tried step shrunk once more, a value at which
the condition was never verified. -/
theorem line_search_backtrack_characterization
    (f : α × α → WithTop α) (x direction grad : α × α) (alpha_init c1 rho : α) :
    (∀ k, k < 50 →
      (∀ j, j < k →
        ¬ armijoHolds f x direction (f x) (dotV grad direction) c1 (alpha_init * rho ^ j)) →
      armijoHolds f x direction (f x) (dotV grad direction) c1 (alpha_init * rho ^ k) →
      line_search_backtrack f x direction grad alpha_init c1 rho =
        (alpha_init * rho ^ k, k + 1)) ∧
    ((∀ k, k < 50 →
        ¬ armijoHolds f x direction (f x) (dotV grad direction) c1 (alpha_init * rho ^ k)) →
      line_search_backtrack f x direction grad alpha_init c1 rho =
        (alpha_init * rho ^ 50, 50)) := by
  constructor
  · intro k hk hmin hacc
    have := lsLoop_first_success f x direction (f x) (dotV grad direction) c1 rho
      50 k alpha_init 0 hk hmin hacc
    simpa [line_search_backtrack] using this
  · intro hfail
    have := lsLoop_exhausted f x direction (f x) (dotV grad direction) c1 rho
      50 alpha_init 0 hfail
    simpa [line_search_backtrack] using this

/-- For `f (v) = v.1` along the ascent direction `(1, 0)` with gradient
`(1, 0)` and the source defaults `c1 = 1e-4`, `alpha0 = 1`, the Armijo
condition fails at every trial step `1·(1/2)^k`. -/
theorem armijo_linear_fails (k : Nat) :
    ¬ armijoHolds (fun v => ((v.1 : ℚ) : WithTop ℚ)) (0, 0) (1, 0)
      ((fun v => ((v.1 : ℚ) : WithTop ℚ)) (0, 0)) (dotV (1, 0) (1, 0))
      (1 / 10 ^ 4) (1 * (1 / 2) ^ k) := by
  have hpos : (0 : ℚ) < (1 / 2) ^ k := by positivity
  simp only [armijoHolds, dotV, Prod.smul_mk, Prod.mk_add_mk, smul_eq_mul,
    ← WithTop.coe_add, WithTop.coe_le_coe]
  push_neg
  nlinarith [hpos]

/-- Witness for C3 (amended), both branches at concrete inputs: immediate
acceptance for a zero objective with zero gradient, and full exhaustion for
`f (v) = v.1` along an ascent direction. -/
theorem line_search_backtrack_characterization_witness :
    line_search_backtrack (fun _ => ((0 : ℚ) : WithTop ℚ)) (0, 0) (1, 0) (0, 0)
        1 (1 / 10 ^ 4) (1 / 2) = (1 * (1 / 2 : ℚ) ^ 0, 0 + 1) ∧
      line_search_backtrack (fun v => ((v.1 : ℚ) : WithTop ℚ)) (0, 0) (1, 0) (1, 0)
        1 (1 / 10 ^ 4) (1 / 2) = (1 * (1 / 2 : ℚ) ^ 50, 50) :=
  ⟨(line_search_backtrack_characterization (fun _ => ((0 : ℚ) : WithTop ℚ))
      (0, 0) (1, 0) (0, 0) 1 (1 / 10 ^ 4) (1 / 2)).1 0 (by omega)
      (fun j hj => absurd hj (Nat.not_lt_zero j))
      (by simp [armijoHolds, dotV]),
   (line_search_backtrack_characterization (fun v => ((v.1 : ℚ) : WithTop ℚ))
      (0, 0) (1, 0) (1, 0) 1 (1 / 10 ^ 4) (1 / 2)).2
      (fun k _ => armijo_linear_fails k)⟩

/-- Counterexample to C3 as frozen: for `f (v) = v.1` along the ascent
direction `(1, 0)` with gradient `(1, 0)` and the source's default
`alpha0 = 1`, `c1 = 1e-4`, `rho = 0.5`, every one of the 50 attempts
`1·(1/2)^k` (`k < 50`) fails the Armijo condition, yet the returned alpha
`1·(1/2)^50` is not the last (smallest) alpha that was tried — indeed it
equals none of the tried alphas. -/
theorem line_search_backtrack_counterexample :
    (∀ k, k < 50 →
      ¬ armijoHolds (fun v => ((v.1 : ℚ) : WithTop ℚ)) (0, 0) (1, 0)
        ((fun v => ((v.1 : ℚ) : WithTop ℚ)) (0, 0)) (dotV (1, 0) (1, 0))
        (1 / 10 ^ 4) (1 * (1 / 2) ^ k)) ∧
    (line_search_backtrack (fun v => ((v.1 : ℚ) : WithTop ℚ)) (0, 0) (1, 0) (1, 0)
        1 (1 / 10 ^ 4) (1 / 2)).1 = 1 * (1 / 2 : ℚ) ^ 50 ∧
    (∀ k, k < 50 → 1 * (1 / 2 : ℚ) ^ 50 ≠ 1 * (1 / 2 : ℚ) ^ k) := by
  have heval := lsLoop_exhausted (fun v => ((v.1 : ℚ) : WithTop ℚ)) (0, 0) (1, 0)
    ((fun v => ((v.1 : ℚ) : WithTop ℚ)) (0, 0)) (dotV (1, 0) (1, 0)) (1 / 10 ^ 4)
    (1 / 2) 50 1 0 (fun k _ => armijo_linear_fails k)
  refine ⟨fun k _ => armijo_linear_fails k, ?_, ?_⟩
  · rw [line_search_backtrack, heval]
  · intro k hk
    have := pow_lt_pow_right_of_lt_one₀ (by norm_num : (0:ℚ) < 1/2) (by norm_num) hk
    simpa using ne_of_lt this

/-! History bookkeeping invariants of the optimizer loops -/

/-- Bookkeeping invariant of a `steepest_descent` / `newton_method` loop
state: the histories are one longer than the completed iteration count,
the gradient-norm list additionally holds the norm of the converging check
when the loop has stopped early, and the live iterate is the last recorded
point. -/
def SdInv (st : SdState α) : Prop :=
  st.x_history.length = st.iter + 1 ∧
    st.f_history.length = st.iter + 1 ∧
    st.gradient_norms.length = (if st.done then st.iter + 1 else st.iter) ∧
    st.x_history.getLastD 0 = st.x

theorem sdInit_inv (O : Oracle α) (x0 : α × α) : SdInv (sdInit O x0) := by
  simp [SdInv, sdInit]

theorem sdStep_inv (O : Oracle α) (tol : α) (st : SdState α) (h : SdInv st) :
    SdInv (sdStep O tol st) := by
  obtain ⟨h1, h2, h3, h4⟩ := h
  by_cases hdone : st.done = true
  · simp only [sdStep, if_pos hdone]
    exact ⟨h1, h2, h3, h4⟩
  · have h3' : st.gradient_norms.length = st.iter := by simpa [hdone] using h3
    by_cases hconv : O.norm (O.grad st.x) < tol
    · simp only [sdStep, if_neg hdone, if_pos hconv]
      exact ⟨h1, h2, by simp [List.length_append, h3'], h4⟩
    · simp only [sdStep, if_neg hdone, if_neg hconv]
      exact ⟨by simp [List.length_append, h1], by simp [List.length_append, h2],
        by simp [List.length_append, h3'], List.getLastD_concat _ _ _⟩

theorem newtonStep_inv (O : Oracle α) (tol : α) (st : SdState α) (h : SdInv st) :
    SdInv (newtonStep O tol st) := by
  obtain ⟨h1, h2, h3, h4⟩ := h
  by_cases hdone : st.done = true
  · simp only [newtonStep, if_pos hdone]
    exact ⟨h1, h2, h3, h4⟩
  · have h3' : st.gradient_norms.length = st.iter := by simpa [hdone] using h3
    by_cases hconv : O.norm (O.grad st.x) < tol
    · simp only [newtonStep, if_neg hdone, if_pos hconv]
      exact ⟨h1, h2, by simp [List.length_append, h3'], h4⟩
    · simp only [newtonStep, if_neg hdone, if_neg hconv]
      exact ⟨by simp [List.length_append, h1], by simp [List.length_append, h2],
        by simp [List.length_append, h3'], List.getLastD_concat _ _ _⟩

/-- Bookkeeping invariant of a `dfp_method` loop state. -/
def DfpInv (st : DfpState α) : Prop :=
  st.x_history.length = st.iter + 1 ∧
    st.f_history.length = st.iter + 1 ∧
    st.gradient_norms.length = (if st.done then st.iter + 1 else st.iter) ∧
    st.x_history.getLastD 0 = st.x

theorem dfpInit_inv (O : Oracle α) (x0 : α × α) : DfpInv (dfpInit O x0) := by
  simp [DfpInv, dfpInit]

theorem dfpStep_inv (O : Oracle α) (tol : α) (st : DfpState α) (h : DfpInv st) :
    DfpInv (dfpStep O tol st) := by
  obtain ⟨h1, h2, h3, h4⟩ := h
  by_cases hdone : st.done = true
  · simp only [dfpStep, if_pos hdone]
    exact ⟨h1, h2, h3, h4⟩
  · have h3' : st.gradient_norms.length = st.iter := by simpa [hdone] using h3
    by_cases hconv : O.norm st.g < tol
    · simp only [dfpStep, if_neg hdone, if_pos hconv]
      exact ⟨h1, h2, by simp [List.length_append, h3'], h4⟩
    · simp only [dfpStep, if_neg hdone, if_neg hconv]
      exact ⟨by simp [List.length_append, h1], by simp [List.length_append, h2],
        by simp [List.length_append, h3'], List.getLastD_concat _ _ _⟩

theorem sdIterate_inv (O : Oracle α) (tol : α) (x0 : α × α) :
    ∀ k, SdInv ((sdStep O tol)^[k] (sdInit O x0)) := by
  intro k
  induction k with
  | zero => simpa using sdInit_inv O x0
  | succ k ih =>
    rw [Function.iterate_succ_apply']
    exact sdStep_inv O tol _ ih

theorem newtonIterate_inv (O : Oracle α) (tol : α) (x0 : α × α) :
    ∀ k, SdInv ((newtonStep O tol)^[k] (sdInit O x0)) := by
  intro k
  induction k with
  | zero => simpa using sdInit_inv O x0
  | succ k ih =>
    rw [Function.iterate_succ_apply']
    exact newtonStep_inv O tol _ ih

theorem dfpIterate_inv (O : Oracle α) (tol : α) (x0 : α × α) :
    ∀ k, DfpInv ((dfpStep O tol)^[k] (dfpInit O x0)) := by
  intro k
  induction k with
  | zero => simpa using dfpInit_inv O x0
  | succ k ih =>
    rw [Function.iterate_succ_apply']
    exact dfpStep_inv O tol _ ih

theorem sdStep_iter_le (O : Oracle α) (tol : α) (st : SdState α) :
    (sdStep O tol st).iter ≤ st.iter + 1 := by
  by_cases hdone : st.done = true
  · simp [sdStep, if_pos hdone]
  · by_cases hconv : O.norm (O.grad st.x) < tol
    · simp [sdStep, if_neg hdone, if_pos hconv]
    · simp [sdStep, if_neg hdone, if_neg hconv]

theorem newtonStep_iter_le (O : Oracle α) (tol : α) (st : SdState α) :
    (newtonStep O tol st).iter ≤ st.iter + 1 := by
  by_cases hdone : st.done = true
  · simp [newtonStep, if_pos hdone]
  · by_cases hconv : O.norm (O.grad st.x) < tol
    · simp [newtonStep, if_neg hdone, if_pos hconv]
    · simp [newtonStep, if_neg hdone, if_neg hconv]

theorem dfpStep_iter_le (O : Oracle α) (tol : α) (st : DfpState α) :
    (dfpStep O tol st).iter ≤ st.iter + 1 := by
  by_cases hdone : st.done = true
  · simp [dfpStep, if_pos hdone]
  · by_cases hconv : O.norm st.g < tol
    · simp [dfpStep, if_pos hconv, if_neg hdone]
    · simp [dfpStep, if_neg hdone, if_neg hconv]

theorem sdIterate_iter_le (O : Oracle α) (tol : α) (x0 : α × α) :
    ∀ k, ((sdStep O tol)^[k] (sdInit O x0)).iter ≤ k := by
  intro k
  induction k with
  | zero => simp [sdInit]
  | succ k ih =>
    rw [Function.iterate_succ_apply']
    exact le_trans (sdStep_iter_le O tol _) (by omega)

theorem newtonIterate_iter_le (O : Oracle α) (tol : α) (x0 : α × α) :
    ∀ k, ((newtonStep O tol)^[k] (sdInit O x0)).iter ≤ k := by
  intro k
  induction k with
  | zero => simp [sdInit]
  | succ k ih =>
    rw [Function.iterate_succ_apply']
    exact le_trans (newtonStep_iter_le O tol _) (by omega)

theorem dfpIterate_iter_le (O : Oracle α) (tol : α) (x0 : α × α) :
    ∀ k, ((dfpStep O tol)^[k] (dfpInit O x0)).iter ≤ k := by
  intro k
  induction k with
  | zero => simp [dfpInit]
  | succ k ih =>
    rw [Function.iterate_succ_apply']
    exact le_trans (dfpStep_iter_le O tol _) (by omega)

/-! Freezing of a converged loop state -/

theorem sdStep_of_done (O : Oracle α) (tol : α) (st : SdState α)
    (h : st.done = true) : sdStep O tol st = st := by
  simp [sdStep, h]

theorem newtonStep_of_done (O : Oracle α) (tol : α) (st : SdState α)
    (h : st.done = true) : newtonStep O tol st = st := by
  simp [newtonStep, h]

theorem dfpStep_of_done (O : Oracle α) (tol : α) (st : DfpState α)
    (h : st.done = true) : dfpStep O tol st = st := by
  simp [dfpStep, h]

theorem sdIterate_of_done (O : Oracle α) (tol : α) (st : SdState α)
    (h : st.done = true) : ∀ k, (sdStep O tol)^[k] st = st := by
  intro k
  induction k with
  | zero => rfl
  | succ k ih => rw [Function.iterate_succ_apply, sdStep_of_done O tol st h, ih]

theorem newtonIterate_of_done (O : Oracle α) (tol : α) (st : SdState α)
    (h : st.done = true) : ∀ k, (newtonStep O tol)^[k] st = st := by
  intro k
  induction k with
  | zero => rfl
  | succ k ih => rw [Function.iterate_succ_apply, newtonStep_of_done O tol st h, ih]

theorem dfpIterate_of_done (O : Oracle α) (tol : α) (st : DfpState α)
    (h : st.done = true) : ∀ k, (dfpStep O tol)^[k] st = st := by
  intro k
  induction k with
  | zero => rfl
  | succ k ih => rw [Function.iterate_succ_apply, dfpStep_of_done O tol st h, ih]

/-! Claim theorems on the optimizer results (C1, C2, C9, C10) -/

/-- C1: for every run of each of the three optimizers — whatever the
oracle (hence whatever starting point, tolerance and finite-difference
step) and whatever `max_iter` — the returned `OptimizationResult`
satisfies `len x_history = len f_history = iterations + 1` and
`iterations ≤ max_iter`. -/
theorem optimizer_history_length_invariant (O : Oracle α) (x0 : α × α)
    (max_iter : Nat) (tol : α) :
    ((steepest_descent O x0 max_iter tol).x_history.length
        = (steepest_descent O x0 max_iter tol).iterations + 1 ∧
      (steepest_descent O x0 max_iter tol).f_history.length
        = (steepest_descent O x0 max_iter tol).iterations + 1 ∧
      (steepest_descent O x0 max_iter tol).iterations ≤ max_iter) ∧
    ((newton_method O x0 max_iter tol).x_history.length
        = (newton_method O x0 max_iter tol).iterations + 1 ∧
      (newton_method O x0 max_iter tol).f_history.length
        = (newton_method O x0 max_iter tol).iterations + 1 ∧
      (newton_method O x0 max_iter tol).iterations ≤ max_iter) ∧
    ((dfp_method O x0 max_iter tol).x_history.length
        = (dfp_method O x0 max_iter tol).iterations + 1 ∧
      (dfp_method O x0 max_iter tol).f_history.length
        = (dfp_method O x0 max_iter tol).iterations + 1 ∧
      (dfp_method O x0 max_iter tol).iterations ≤ max_iter) := by
  refine ⟨?_, ?_, ?_⟩
  · obtain ⟨h1, h2, _, _⟩ := sdIterate_inv O tol x0 max_iter
    exact ⟨by simpa [steepest_descent, mkResult] using h1,
      by simpa [steepest_descent, mkResult] using h2,
      by simpa [steepest_descent, mkResult] using sdIterate_iter_le O tol x0 max_iter⟩
  · obtain ⟨h1, h2, _, _⟩ := newtonIterate_inv O tol x0 max_iter
    exact ⟨by simpa [newton_method, mkResult] using h1,
      by simpa [newton_method, mkResult] using h2,
      by simpa [newton_method, mkResult] using newtonIterate_iter_le O tol x0 max_iter⟩
  · obtain ⟨h1, h2, _, _⟩ := dfpIterate_inv O tol x0 max_iter
    exact ⟨by simpa [dfp_method, mkResultDfp] using h1,
      by simpa [dfp_method, mkResultDfp] using h2,
      by simpa [dfp_method, mkResultDfp] using dfpIterate_iter_le O tol x0 max_iter⟩

/-- C2 (amended): for every run of each optimizer, the `gradient_norms`
list has length `iterations + 1` when the run converged (the norm is
appended before the convergence test that fires) and length `iterations`
when the iteration budget was exhausted. -/
theorem optimizer_gradient_norms_length (O : Oracle α) (x0 : α × α)
    (max_iter : Nat) (tol : α) :
    (steepest_descent O x0 max_iter tol).gradient_norms.length
        = (if (steepest_descent O x0 max_iter tol).converged
            then (steepest_descent O x0 max_iter tol).iterations + 1
            else (steepest_descent O x0 max_iter tol).iterations) ∧
      (newton_method O x0 max_iter tol).gradient_norms.length
        = (if (newton_method O x0 max_iter tol).converged
            then (newton_method O x0 max_iter tol).iterations + 1
            else (newton_method O x0 max_iter tol).iterations) ∧
      (dfp_method O x0 max_iter tol).gradient_norms.length
        = (if (dfp_method O x0 max_iter tol).converged
            then (dfp_method O x0 max_iter tol).iterations + 1
            else (dfp_method O x0 max_iter tol).iterations) := by
  refine ⟨?_, ?_, ?_⟩
  · obtain ⟨_, _, h3, _⟩ := sdIterate_inv O tol x0 max_iter
    simpa [steepest_descent, mkResult] using h3
  · obtain ⟨_, _, h3, _⟩ := newtonIterate_inv O tol x0 max_iter
    simpa [newton_method, mkResult] using h3
  · obtain ⟨_, _, h3, _⟩ := dfpIterate_inv O tol x0 max_iter
    simpa [dfp_method, mkResultDfp] using h3

/-- An oracle whose objective, gradient and norm are identically zero:
every optimizer converges at the very first gradient check. -/
def zeroOracle : Oracle ℚ :=
  ⟨fun _ => ((0 : ℚ) : WithTop ℚ), fun _ => (0, 0), fun _ => Mat2.eye, fun _ => 0⟩

/-- Counterexample to C2 as frozen: a converged steepest-descent run in
which `gradient_norms` has length `iterations + 1 = 1`, not `iterations
= 0` — the norm of the converging check is appended before the test. -/
theorem gradient_norms_length_counterexample :
    (steepest_descent zeroOracle (2, 3) 5 1).converged = true ∧
      (steepest_descent zeroOracle (2, 3) 5 1).iterations = 0 ∧
      (steepest_descent zeroOracle (2, 3) 5 1).gradient_norms.length
        ≠ (steepest_descent zeroOracle (2, 3) 5 1).iterations := by
  refine ⟨by decide, by decide, by decide⟩

/-- C10: for every run of each of the three optimizers, the returned
record is internally consistent: `final_x` is the last element of
`x_history` and `final_f` is the last element of `f_history`. -/
theorem optimizer_final_point_consistent (O : Oracle α) (x0 : α × α)
    (max_iter : Nat) (tol : α) :
    ((steepest_descent O x0 max_iter tol).x_history.getLastD 0
        = (steepest_descent O x0 max_iter tol).final_x ∧
      (steepest_descent O x0 max_iter tol).f_history.getLastD ⊤
        = (steepest_descent O x0 max_iter tol).final_f) ∧
    ((newton_method O x0 max_iter tol).x_history.getLastD 0
        = (newton_method O x0 max_iter tol).final_x ∧
      (newton_method O x0 max_iter tol).f_history.getLastD ⊤
        = (newton_method O x0 max_iter tol).final_f) ∧
    ((dfp_method O x0 max_iter tol).x_history.getLastD 0
        = (dfp_method O x0 max_iter tol).final_x ∧
      (dfp_method O x0 max_iter tol).f_history.getLastD ⊤
        = (dfp_method O x0 max_iter tol).final_f) := by
  refine ⟨?_, ?_, ?_⟩
  · obtain ⟨_, _, _, h4⟩ := sdIterate_inv O tol x0 max_iter
    exact ⟨by simpa [steepest_descent, mkResult] using h4, rfl⟩
  · obtain ⟨_, _, _, h4⟩ := newtonIterate_inv O tol x0 max_iter
    exact ⟨by simpa [newton_method, mkResult] using h4, rfl⟩
  · obtain ⟨_, _, _, h4⟩ := dfpIterate_inv O tol x0 max_iter
    exact ⟨by simpa [dfp_method, mkResultDfp] using h4, rfl⟩

/-- C9: started at a point whose oracle gradient norm is already below
`tol` (and with a positive iteration budget, the spec's input domain),
each optimizer returns `iterations = 0`, the single-element history
`[x0]`, and `converged = true`. -/
theorem optimizer_immediate_convergence (O : Oracle α) (x0 : α × α)
    (max_iter : Nat) (tol : α) (hmax : 1 ≤ max_iter)
    (hconv : O.norm (O.grad x0) < tol) :
    ((steepest_descent O x0 max_iter tol).iterations = 0 ∧
      (steepest_descent O x0 max_iter tol).x_history = [x0] ∧
      (steepest_descent O x0 max_iter tol).converged = true) ∧
    ((newton_method O x0 max_iter tol).iterations = 0 ∧
      (newton_method O x0 max_iter tol).x_history = [x0] ∧
      (newton_method O x0 max_iter tol).converged = true) ∧
    ((dfp_method O x0 max_iter tol).iterations = 0 ∧
      (dfp_method O x0 max_iter tol).x_history = [x0] ∧
      (dfp_method O x0 max_iter tol).converged = true) := by
  obtain ⟨m, rfl⟩ : ∃ m, max_iter = m + 1 :=
    ⟨max_iter - 1, by omega⟩
  have hsd : sdStep O tol (sdInit O x0) =
      ⟨x0, [x0], [O.f x0], [O.norm (O.grad x0)], 5, 0, true⟩ := by
    simp [sdStep, sdInit, hconv]
  have hnt : newtonStep O tol (sdInit O x0) =
      ⟨x0, [x0], [O.f x0], [O.norm (O.grad x0)], 21, 0, true⟩ := by
    simp [newtonStep, sdInit, hconv]
  have hdfp : dfpStep O tol (dfpInit O x0) =
      ⟨x0, O.grad x0, Mat2.eye, [x0], [O.f x0], [O.norm (O.grad x0)], 5, 0, true⟩ := by
    simp [dfpStep, dfpInit, hconv]
  refine ⟨?_, ?_, ?_⟩
  · have : (sdStep O tol)^[m + 1] (sdInit O x0) =
        ⟨x0, [x0], [O.f x0], [O.norm (O.grad x0)], 5, 0, true⟩ := by
      rw [Function.iterate_succ_apply, hsd, sdIterate_of_done O tol _ rfl m]
    simp [steepest_descent, mkResult, this]
  · have : (newtonStep O tol)^[m + 1] (sdInit O x0) =
        ⟨x0, [x0], [O.f x0], [O.norm (O.grad x0)], 21, 0, true⟩ := by
      rw [Function.iterate_succ_apply, hnt, newtonIterate_of_done O tol _ rfl m]
    simp [newton_method, mkResult, this]
  · have : (dfpStep O tol)^[m + 1] (dfpInit O x0) =
        ⟨x0, O.grad x0, Mat2.eye, [x0], [O.f x0], [O.norm (O.grad x0)], 5, 0, true⟩ := by
      rw [Function.iterate_succ_apply, hdfp, dfpIterate_of_done O tol _ rfl m]
    simp [dfp_method, mkResultDfp, this]

/-- Witness for C9 at a concrete oracle and starting point. -/
theorem optimizer_immediate_convergence_witness :
    ((steepest_descent zeroOracle (2, 3) 5 1).iterations = 0 ∧
      (steepest_descent zeroOracle (2, 3) 5 1).x_history = [(2, 3)] ∧
      (steepest_descent zeroOracle (2, 3) 5 1).converged = true) ∧
    ((newton_method zeroOracle (2, 3) 5 1).iterations = 0 ∧
      (newton_method zeroOracle (2, 3) 5 1).x_history = [(2, 3)] ∧
      (newton_method zeroOracle (2, 3) 5 1).converged = true) ∧
    ((dfp_method zeroOracle (2, 3) 5 1).iterations = 0 ∧
      (dfp_method zeroOracle (2, 3) 5 1).x_history = [(2, 3)] ∧
      (dfp_method zeroOracle (2, 3) 5 1).converged = true) :=
  optimizer_immediate_convergence zeroOracle (2, 3) 5 1 (by omega) (by norm_num [zeroOracle])

/-! Characterization of Newton's regularized direction choice (C6) -/

theorem reg_mul_ten (k : Nat) : (10 : α) ^ k / 10 ^ 8 * 10 = 10 ^ (k + 1) / 10 ^ 8 := by
  rw [pow_succ]; ring

theorem reg_not_gt_hundred {k : Nat} (hk : k ≤ 10) :
    ¬ ((10 : α) ^ k / 10 ^ 8 > 100) := by
  rw [not_lt, div_le_iff₀ (by positivity)]
  calc (10 : α) ^ k ≤ 10 ^ 10 := pow_le_pow_right₀ (by norm_num) hk
    _ = 100 * 10 ^ 8 := by norm_num

theorem reg_eleven_gt_hundred : ((10 : α) ^ 11 / 10 ^ 8 > 100) := by
  rw [gt_iff_lt, lt_div_iff₀ (by positivity)]
  norm_num

/-- If the first accepted regularization level (among `1e-8·10^m`,
`m ≤ 10`) is level `j`, the escalation loop started at level `k ≤ j` with
enough fuel returns the direction accepted there. -/
theorem lmLoop_first_success (hess : Mat2 α) (g : α × α) :
    ∀ (fuel k j : Nat) (d : α × α), k ≤ j → j ≤ 10 → 12 ≤ k + fuel →
      (∀ m, k ≤ m → m < j → lmAttempt hess g ((10 : α) ^ m / 10 ^ 8) = none) →
      lmAttempt hess g ((10 : α) ^ j / 10 ^ 8) = some d →
      lmLoop hess g fuel ((10 : α) ^ k / 10 ^ 8) = d := by
  intro fuel
  induction fuel with
  | zero => intro k j d hkj hj hfuel _ _; omega
  | succ fuel ih =>
    intro k j d hkj hj hfuel hmin hacc
    rcases eq_or_lt_of_le hkj with rfl | hlt
    · simp only [lmLoop, hacc]
    · have hnone : lmAttempt hess g ((10 : α) ^ k / 10 ^ 8) = none :=
        hmin k le_rfl hlt
      have hnotbig : ¬ ((10 : α) ^ k / 10 ^ 8 * 10 > 100) := by
        rw [reg_mul_ten]
        exact reg_not_gt_hundred (by omega)
      simp only [lmLoop, hnone, if_neg hnotbig]
      rw [reg_mul_ten]
      exact ih (k + 1) j d (by omega) hj (by omega)
        (fun m hm hmj => hmin m (by omega) hmj) hacc

/-- If every regularization level `1e-8·10^m` with `m ≤ 10` is rejected,
the escalation loop started at level `k ≤ 10` with enough fuel falls back
to the steepest-descent direction `-g`. -/
theorem lmLoop_all_rejected (hess : Mat2 α) (g : α × α) :
    ∀ (fuel k : Nat), k ≤ 10 → 12 ≤ k + fuel →
      (∀ m, k ≤ m → m ≤ 10 → lmAttempt hess g ((10 : α) ^ m / 10 ^ 8) = none) →
      lmLoop hess g fuel ((10 : α) ^ k / 10 ^ 8) = -g := by
  intro fuel
  induction fuel with
  | zero => intro k hk hfuel _; omega
  | succ fuel ih =>
    intro k hk hfuel hfail
    have hnone : lmAttempt hess g ((10 : α) ^ k / 10 ^ 8) = none :=
      hfail k le_rfl hk
    rcases eq_or_lt_of_le hk with rfl | hlt
    · have hbig : ((10 : α) ^ 10 / 10 ^ 8 * 10 > 100) := by
        rw [reg_mul_ten]
        exact reg_eleven_gt_hundred
      simp only [lmLoop, hnone, if_pos hbig]
    · have hnotbig : ¬ ((10 : α) ^ k / 10 ^ 8 * 10 > 100) := by
        rw [reg_mul_ten]
        exact reg_not_gt_hundred (by omega)
      simp only [lmLoop, hnone, if_neg hnotbig]
      rw [reg_mul_ten]
      exact ih (k + 1) (by omega) (by omega)
        (fun m hm hm10 => hfail m (by omega) hm10)

/-- C6: in every Newton iteration whose gradient norm is not below `tol`,
the direction is chosen by Levenberg–Marquardt escalation over the levels
`reg = 1e-8·10^j`: an attempt solves `(H + reg·I)·d = -g` and accepts `d`
iff `d·g < 0`, a singular regularized Hessian counting as a rejection
(`lmAttempt … = none`); the direction is the one accepted at the first
successful level, and if every level up to `reg = 1e2` is rejected the
direction is `-g`.  The last conjunct ties `newtonDirection` to the
iterations of `newton_method`: a non-converged step moves along it. -/
theorem newton_direction_lm_escalation (hess : Mat2 α) (g : α × α) :
    (∀ (j : Nat) (d : α × α), j ≤ 10 →
      (∀ m, m < j → lmAttempt hess g ((10 : α) ^ m / 10 ^ 8) = none) →
      lmAttempt hess g ((10 : α) ^ j / 10 ^ 8) = some d →
      newtonDirection hess g = d) ∧
    ((∀ m, m ≤ 10 → lmAttempt hess g ((10 : α) ^ m / 10 ^ 8) = none) →
      newtonDirection hess g = -g) ∧
    (∀ (O : Oracle α) (tol : α) (st : SdState α), st.done = false →
      ¬ (O.norm (O.grad st.x) < tol) →
      (newtonStep O tol st).x = st.x +
        (line_search_backtrack O.f st.x (newtonDirection (O.hess st.x) (O.grad st.x))
          (O.grad st.x) 1 (1 / 10 ^ 4) (1 / 2)).1 •
          newtonDirection (O.hess st.x) (O.grad st.x)) := by
  have hreg0 : (1 : α) / 10 ^ 8 = (10 : α) ^ 0 / 10 ^ 8 := by norm_num
  refine ⟨?_, ?_, ?_⟩
  · intro j d hj hmin hacc
    rw [newtonDirection, hreg0]
    exact lmLoop_first_success hess g 12 0 j d (by omega) hj (by omega)
      (fun m _ hmj => hmin m hmj) hacc
  · intro hfail
    rw [newtonDirection, hreg0]
    exact lmLoop_all_rejected hess g 12 0 (by omega) (by omega)
      (fun m _ hm10 => hfail m hm10)
  · intro O tol st hdone hconv
    simp [newtonStep, hdone, hconv]

/-- Witness for C6: with `H = I` and `g = (1, 0)` the very first
regularization level `reg = 1e-8` is accepted, giving the direction
`(-10^8/(10^8 + 1), 0)`. -/
theorem newton_direction_lm_escalation_witness :
    newtonDirection (Mat2.eye : Mat2 ℚ) (1, 0) = (-(10 ^ 8 / (10 ^ 8 + 1)), 0) :=
  (newton_direction_lm_escalation (Mat2.eye : Mat2 ℚ) (1, 0)).1 0
    (-(10 ^ 8 / (10 ^ 8 + 1)), 0) (by omega)
    (fun m hm => absurd hm (Nat.not_lt_zero m))
    (by
      norm_num [lmAttempt, solve2, Mat2.det, Mat2.eye, Mat2.mulVec, dotV,
        Mat2.add_def, Mat2.smul_def, Prod.ext_iff])

/-! The DFP update and its curvature gate (C7) -/

/-- C7: in every DFP iteration the inverse-Hessian approximation is
updated to `H + (s sᵗ)/(s·y) − (H y yᵗ H)/(yᵗ H y)` exactly when the
curvature condition `y·s > 1e-12` holds and is left unchanged otherwise
(first two conjuncts); for a symmetric `H` the source's
`outer(H y, H y)` form coincides with the claim's `H·(y yᵗ)·H` form
(third conjunct); and in either case the loop continues — a
non-converged `dfpStep` increments the iteration count and does not stop
the run (fourth conjunct). -/
theorem dfp_curvature_gated_update (H : Mat2 α) (s y : α × α) :
    (dotV y s > 1 / 10 ^ 12 → dfpNextH H s y = dfpUpdate H s y) ∧
    (¬ (dotV y s > 1 / 10 ^ 12) → dfpNextH H s y = H) ∧
    (H.b = H.c → dfpUpdate H s y =
      H + (1 / dotV s y) • outer s s
        - (1 / dotV y (H.mulVec y)) • (H * outer y y * H)) ∧
    (∀ (O : Oracle α) (tol : α) (st : DfpState α), st.done = false →
      ¬ (O.norm st.g < tol) →
      (dfpStep O tol st).done = false ∧ (dfpStep O tol st).iter = st.iter + 1) := by
  refine ⟨fun h => if_pos h, fun h => if_neg h, ?_, ?_⟩
  · intro hsym
    obtain ⟨a, b, c, d⟩ := H
    simp only at hsym
    subst hsym
    simp only [dfpUpdate, outer, Mat2.mulVec, Mat2.add_def, Mat2.sub_def,
      Mat2.smul_def, Mat2.mul_def, dotV, Mat2.mk.injEq]
    refine ⟨by ring, by ring, by ring, by ring⟩
  · intro O tol st hdone hconv
    simp [dfpStep, hdone, hconv]

/-- Witness for C7: the gate at concrete inputs (curvature holding, and
failing), the symmetric-form identity at `H = I`, and loop continuation on
a concrete non-converged state. -/
theorem dfp_curvature_gated_update_witness :
    (dfpNextH (Mat2.eye : Mat2 ℚ) (1, 0) (1, 0) = dfpUpdate Mat2.eye (1, 0) (1, 0)) ∧
    (dfpNextH (Mat2.eye : Mat2 ℚ) (0, 0) (1, 0) = Mat2.eye) ∧
    (dfpUpdate (Mat2.eye : Mat2 ℚ) ((1 : ℚ), 0) ((2 : ℚ), 0) =
      Mat2.eye + (1 / dotV ((1 : ℚ), 0) ((2 : ℚ), 0)) • outer ((1 : ℚ), 0) ((1 : ℚ), 0)
        - (1 / dotV ((2 : ℚ), 0) (Mat2.eye.mulVec ((2 : ℚ), 0))) •
            (Mat2.eye * outer ((2 : ℚ), 0) ((2 : ℚ), 0) * Mat2.eye)) ∧
    ((dfpStep zeroOracle 0 (dfpInit zeroOracle (2, 3))).done = false ∧
      (dfpStep zeroOracle 0 (dfpInit zeroOracle (2, 3))).iter =
        (dfpInit zeroOracle (2, 3)).iter + 1) :=
  ⟨(dfp_curvature_gated_update (Mat2.eye : Mat2 ℚ) (1, 0) (1, 0)).1 (by norm_num [dotV]),
   ((dfp_curvature_gated_update (Mat2.eye : Mat2 ℚ) (0, 0) (1, 0)).2.1) (by norm_num [dotV]),
   ((dfp_curvature_gated_update (Mat2.eye : Mat2 ℚ) (1, 0) (2, 0)).2.2.1) rfl,
   ((dfp_curvature_gated_update (Mat2.eye : Mat2 ℚ) (0, 0) (0, 0)).2.2.2) zeroOracle 0
      (dfpInit zeroOracle (2, 3)) rfl (by norm_num [zeroOracle, dfpInit])⟩

/-! Symmetry and positive-definiteness of the DFP approximation (C8) -/

/-- The quadratic form `zᵗ M z` of a `2 × 2` matrix. -/
def quadForm (M : Mat2 α) (z : α × α) : α := dotV z (M.mulVec z)

/-- Positive definiteness of a `2 × 2` matrix via its quadratic form (for
a symmetric real matrix this is equivalent to all eigenvalues being
positive). -/
def Mat2.PosDef (M : Mat2 α) : Prop := ∀ z : α × α, z ≠ 0 → 0 < quadForm M z

theorem dotV_comm (u v : α × α) : dotV u v = dotV v u := by
  simp only [dotV]; ring

theorem dotV_smul_right (u : α × α) (t : α) (v : α × α) :
    dotV u (t • v) = t * dotV u v := by
  obtain ⟨u1, u2⟩ := u; obtain ⟨v1, v2⟩ := v
  simp only [dotV, Prod.smul_mk, smul_eq_mul]; ring

theorem dotV_smul_left (t : α) (u v : α × α) :
    dotV (t • u) v = t * dotV u v := by
  obtain ⟨u1, u2⟩ := u; obtain ⟨v1, v2⟩ := v
  simp only [dotV, Prod.smul_mk, smul_eq_mul]; ring

theorem quadForm_smul_vec (H : Mat2 α) (t : α) (y : α × α) :
    quadForm H (t • y) = t ^ 2 * quadForm H y := by
  obtain ⟨a, b, c, d⟩ := H; obtain ⟨y1, y2⟩ := y
  simp only [quadForm, dotV, Mat2.mulVec, Prod.smul_mk, smul_eq_mul]; ring

/-- Expansion of the quadratic form of the DFP update: the `outer`
products contribute the squared dot products of the source formula. -/
theorem quadForm_dfpUpdate (H : Mat2 α) (s y z : α × α) :
    quadForm (dfpUpdate H s y) z =
      quadForm H z + (dotV s z) ^ 2 / dotV s y
        - (dotV z (H.mulVec y)) ^ 2 / quadForm H y := by
  obtain ⟨a, b, c, d⟩ := H
  obtain ⟨s1, s2⟩ := s; obtain ⟨y1, y2⟩ := y; obtain ⟨z1, z2⟩ := z
  simp only [dfpUpdate, quadForm, outer, Mat2.mulVec, Mat2.add_def,
    Mat2.sub_def, Mat2.smul_def, dotV]
  ring

/-- Expansion of the quadratic form at `z - t·y` for a symmetric matrix. -/
theorem quadForm_sub_smul (H : Mat2 α) (hsym : H.b = H.c) (z y : α × α) (t : α) :
    quadForm H (z - t • y) =
      quadForm H z - 2 * t * dotV z (H.mulVec y) + t ^ 2 * quadForm H y := by
  obtain ⟨a, b, c, d⟩ := H
  simp only at hsym
  subst hsym
  obtain ⟨y1, y2⟩ := y; obtain ⟨z1, z2⟩ := z
  simp only [quadForm, dotV, Mat2.mulVec, Prod.smul_mk, smul_eq_mul,
    Prod.mk_sub_mk]
  ring

/-- Core preservation result: a DFP update with positive curvature
`s·y > 0` keeps the approximation symmetric and positive definite
(Cauchy–Schwarz in the `H`-inner product, with the curvature term
supplying strictness along `y`). -/
theorem dfpUpdate_posDef (H : Mat2 α) (s y : α × α) (hsym : H.b = H.c)
    (hPD : Mat2.PosDef H) (hsy : 0 < dotV s y) :
    (dfpUpdate H s y).b = (dfpUpdate H s y).c ∧ Mat2.PosDef (dfpUpdate H s y) := by
  have hy0 : y ≠ 0 := by
    rintro rfl
    simp only [dotV, Prod.fst_zero, Prod.snd_zero, mul_zero, add_zero,
      lt_self_iff_false] at hsy
  have hqy : 0 < quadForm H y := hPD y hy0
  have hsy' : dotV s y ≠ 0 := ne_of_gt hsy
  have hqy' : quadForm H y ≠ 0 := ne_of_gt hqy
  constructor
  · obtain ⟨a, b, c, d⟩ := H
    simp only at hsym
    subst hsym
    obtain ⟨s1, s2⟩ := s; obtain ⟨y1, y2⟩ := y
    simp only [dfpUpdate, outer, Mat2.mulVec, Mat2.add_def, Mat2.sub_def,
      Mat2.smul_def, dotV]
    ring
  · intro z hz
    rw [quadForm_dfpUpdate]
    set t := dotV z (H.mulVec y) / quadForm H y with hts
    by_cases hw : z - t • y = 0
    · have hzty : z = t • y := by rwa [sub_eq_zero] at hw
      have ht0 : t ≠ 0 := by
        rintro h
        rw [h, zero_smul] at hzty
        exact hz hzty
      have hX : dotV y (H.mulVec y) = quadForm H y := rfl
      rw [hzty, quadForm_smul_vec, dotV_smul_right, dotV_smul_left, hX]
      have hred : t ^ 2 * quadForm H y + (t * dotV s y) ^ 2 / dotV s y
          - (t * quadForm H y) ^ 2 / quadForm H y = t ^ 2 * dotV s y := by
        field_simp
        ring
      rw [hred]
      exact mul_pos (pow_two_pos_of_ne_zero ht0) hsy
    · have h5 : 0 < quadForm H (z - t • y) := hPD _ hw
      rw [quadForm_sub_smul H hsym] at h5
      have h6 : quadForm H z - 2 * t * dotV z (H.mulVec y) + t ^ 2 * quadForm H y
          = quadForm H z - (dotV z (H.mulVec y)) ^ 2 / quadForm H y := by
        rw [hts]
        field_simp
        ring
      rw [h6] at h5
      have h7 : 0 ≤ (dotV s z) ^ 2 / dotV s y :=
        div_nonneg (sq_nonneg _) (le_of_lt hsy)
      linarith

theorem dfpNextH_posDef (H : Mat2 α) (s y : α × α) (hsym : H.b = H.c)
    (hPD : Mat2.PosDef H) :
    (dfpNextH H s y).b = (dfpNextH H s y).c ∧ Mat2.PosDef (dfpNextH H s y) := by
  unfold dfpNextH
  split_ifs with h
  · have h0 : 0 < dotV s y := by
      rw [dotV_comm]
      exact lt_trans (by positivity) h
    exact dfpUpdate_posDef H s y hsym hPD h0
  · exact ⟨hsym, hPD⟩

theorem eye_posDef : (Mat2.eye : Mat2 α).b = (Mat2.eye : Mat2 α).c ∧
    Mat2.PosDef (Mat2.eye : Mat2 α) := by
  refine ⟨rfl, ?_⟩
  intro z hz
  obtain ⟨z1, z2⟩ := z
  have hne : z1 ≠ 0 ∨ z2 ≠ 0 := by
    by_contra hc
    push_neg at hc
    exact hz (Prod.ext hc.1 hc.2)
  simp only [quadForm, dotV, Mat2.mulVec, Mat2.eye]
  rcases hne with h | h
  · nlinarith [pow_two_pos_of_ne_zero h, sq_nonneg z2]
  · nlinarith [pow_two_pos_of_ne_zero h, sq_nonneg z1]

theorem dfpStep_posDef (O : Oracle α) (tol : α) (st : DfpState α)
    (h : st.H.b = st.H.c ∧ Mat2.PosDef st.H) :
    (dfpStep O tol st).H.b = (dfpStep O tol st).H.c ∧
      Mat2.PosDef (dfpStep O tol st).H := by
  by_cases hdone : st.done = true
  · simp only [dfpStep, if_pos hdone]
    exact h
  · by_cases hconv : O.norm st.g < tol
    · simp only [dfpStep, if_neg hdone, if_pos hconv]
      exact h
    · simp only [dfpStep, if_neg hdone, if_neg hconv]
      exact dfpNextH_posDef _ _ _ h.1 h.2

/-- C8: along every DFP run, starting from the identity initialization,
the maintained inverse-Hessian approximation stays symmetric and positive
definite after every iteration — updates are applied only when the
curvature condition holds, and such an update preserves both properties
(iterations that skip the update leave `H` unchanged). -/
theorem dfp_inverse_hessian_sym_posdef (O : Oracle α) (x0 : α × α) (tol : α) :
    ∀ k, ((dfpStep O tol)^[k] (dfpInit O x0)).H.b
        = ((dfpStep O tol)^[k] (dfpInit O x0)).H.c ∧
      Mat2.PosDef ((dfpStep O tol)^[k] (dfpInit O x0)).H := by
  intro k
  induction k with
  | zero => simpa [dfpInit] using (eye_posDef : _ ∧ Mat2.PosDef (Mat2.eye : Mat2 α))
  | succ k ih =>
    rw [Function.iterate_succ_apply']
    exact dfpStep_posDef O tol _ ih

end TankModel
